import Mathlib

/-!
Shallow embedding of the graph construction, weighting and connectivity
engine of the missmap repository
(`src/lib/components/FederationGraph.svelte`).  Numeric values that the
source computes with JS numbers are modelled with `ℚ` where the source
only adds, divides by constants and compares, and with `ℝ` where the
source takes square roots or logarithms (`Math.sqrt`, `Math.log10`).
-/

namespace Missmap

/-- One directional federation observation, as passed to the
`FederationGraph` component (`Federation` interface in the source). -/
structure FederationObservation where
  sourceHost : String
  targetHost : String
  usersCount : Nat
  notesCount : Nat
  isBlocked : Bool
  isSuspended : Bool
deriving DecidableEq, Repr

/-- A catalog server record; only the fields the graph builder reads are
modelled (`host`, `usersCount`).  `usersCount` is optional in the source
(`s.usersCount ?? 1`). -/
structure ServerRecord where
  host : String
  usersCount : Option Nat
deriving DecidableEq, Repr

/-- `const serverHosts = new Set(servers.map((s) => s.host))` (line 888). -/
def serverHostsOf (servers : List ServerRecord) : List String :=
  servers.map (·.host)

/-- `viewpointHosts`: every `sourceHost` of any observation (lines 892-895). -/
def viewpointHostsOf (feds : List FederationObservation) : List String :=
  feds.map (·.sourceHost)

/-- `serverHosts.has(h) || viewpointHosts.has(h)` (lines 907-908). -/
def hostAllowed (servers : List ServerRecord) (feds : List FederationObservation)
    (h : String) : Bool :=
  (serverHostsOf servers).contains h || (viewpointHostsOf feds).contains h

/-- `federations.filter(f => !f.isBlocked && !f.isSuspended)` (line 898). -/
def normalFederations (feds : List FederationObservation) : List FederationObservation :=
  feds.filter (fun f => !f.isBlocked && !f.isSuspended)

/-- `federations.filter(f => f.isBlocked || f.isSuspended)` (line 899). -/
def blockedFederations (feds : List FederationObservation) : List FederationObservation :=
  feds.filter (fun f => f.isBlocked || f.isSuspended)

/-- `fed.sourceHost < fed.targetHost ? [s, t] : [t, s]` (lines 912-915). -/
def sortedPair (a b : String) : String × String :=
  if a < b then (a, b) else (b, a)

/-- `const activity = fed.usersCount + fed.notesCount / 10` (line 917). -/
def rawActivity (f : FederationObservation) : ℚ :=
  (f.usersCount : ℚ) + (f.notesCount : ℚ) / 10

/-- One element of the `rawActivities` array (lines 902-919). -/
structure RawActivityEntry where
  source : String
  target : String
  activity : ℚ
deriving DecidableEq, Repr

/-- The `rawActivities` collection loop (lines 902-919): normal
observations whose two endpoints are both allowed, with the unordered
pair sorted. -/
def rawActivities (servers : List ServerRecord) (feds : List FederationObservation) :
    List RawActivityEntry :=
  (normalFederations feds).filterMap (fun f =>
    if hostAllowed servers feds f.sourceHost && hostAllowed servers feds f.targetHost then
      some { source := (sortedPair f.sourceHost f.targetHost).1
             target := (sortedPair f.sourceHost f.targetHost).2
             activity := rawActivity f }
    else none)

/-- `const activities = rawActivities.map(r => r.activity)` (line 922). -/
def activityList (servers : List ServerRecord) (feds : List FederationObservation) : List ℚ :=
  (rawActivities servers feds).map (·.activity)

/-- `Math.max(...activities, 1)` (line 923). -/
def maxActivity (servers : List ServerRecord) (feds : List FederationObservation) : ℚ :=
  (activityList servers feds).foldr max 1

/-- `Math.min(...activities, 0)` (line 924). -/
def minActivity (servers : List ServerRecord) (feds : List FederationObservation) : ℚ :=
  (activityList servers feds).foldr min 0

/-- `const activityRange = maxActivity - minActivity || 1` (line 925). -/
def activityRange (servers : List ServerRecord) (feds : List FederationObservation) : ℚ :=
  if maxActivity servers feds - minActivity servers feds = 0 then 1
  else maxActivity servers feds - minActivity servers feds

/-- The dedup key `` `${item.source}-${item.target}` `` (line 930). -/
def RawActivityEntry.key (e : RawActivityEntry) : String :=
  e.source ++ "-" ++ e.target

/-- A value of the `edgeMap` (line 928).  The source stores both `weight`
and `rawActivity`; since `minActivity`/`activityRange` are fixed before the
loop, the stored weight is always `weightOf` of the stored activity, so the
embedding keeps the activity and attaches the weight in `activityEdges`. -/
structure EdgeEntry where
  source : String
  target : String
  activity : ℚ
deriving DecidableEq, Repr

/-- One step of the dedup loop (lines 929-946): insert into the map keyed by
`RawActivityEntry.key`; on an existing key, keep the entry's `source`/`target`
and take the new activity only when it is strictly larger. -/
def insertActivity (m : List (String × EdgeEntry)) (e : RawActivityEntry) :
    List (String × EdgeEntry) :=
  match m with
  | [] => [(e.key, ⟨e.source, e.target, e.activity⟩)]
  | (k, ent) :: rest =>
    if k = e.key then
      if e.activity > ent.activity then (k, ⟨ent.source, ent.target, e.activity⟩) :: rest
      else (k, ent) :: rest
    else (k, ent) :: insertActivity rest e

/-- The deduplicated `edgeMap` (lines 927-946), as an insertion-ordered
association list (JS `Map` iteration order is insertion order). -/
def edgeMap (servers : List ServerRecord) (feds : List FederationObservation) :
    List (String × EdgeEntry) :=
  (rawActivities servers feds).foldl insertActivity []

/-- `Array.from(edgeMap.values())` (line 954). -/
def edgeRecords (servers : List ServerRecord) (feds : List FederationObservation) :
    List EdgeEntry :=
  (edgeMap servers feds).map (·.2)

/-- `1 + Math.sqrt((a - minActivity) / activityRange) * 29` (lines 935-936). -/
noncomputable def weightOf (servers : List ServerRecord) (feds : List FederationObservation)
    (a : ℚ) : ℝ :=
  1 + Real.sqrt (((a : ℝ) - (minActivity servers feds : ℝ)) /
      (activityRange servers feds : ℝ)) * 29

/-- `Math.min(0.3 + (weight / 30) * 0.6, 0.9)` (line 964). -/
noncomputable def opacityOf (w : ℝ) : ℝ :=
  min (0.3 + w / 30 * 0.6) 0.9

/-- A derived activity edge (lines 954-979); the colour fields, computed by
the out-of-scope `collector` module, are omitted. -/
structure ActivityEdge where
  id : String
  source : String
  target : String
  weight : ℝ
  opacity : ℝ

/-- Materialise one `edgeMap` value as an `ActivityEdge` (lines 954-979). -/
noncomputable def mkActivityEdge (servers : List ServerRecord)
    (feds : List FederationObservation) (e : EdgeEntry) : ActivityEdge :=
  { id := e.source ++ "-" ++ e.target
    source := e.source
    target := e.target
    weight := weightOf servers feds e.activity
    opacity := opacityOf (weightOf servers feds e.activity) }

/-- The `edges` array (lines 954-979). -/
noncomputable def activityEdges (servers : List ServerRecord)
    (feds : List FederationObservation) : List ActivityEdge :=
  (edgeRecords servers feds).map (mkActivityEdge servers feds)

/-! ### Block / suspend relations (lines 981-1045) -/

/-- A value of the `blockRelationMap` (lines 985-992), with the derived
`isMutual` of line 1029 as a function below. -/
structure BlockRelation where
  hostA : String
  hostB : String
  forward : Bool
  backward : Bool
  isBlocked : Bool
  isSuspended : Bool
deriving DecidableEq, Repr

/-- `isMutual = relation.forward && relation.backward` (line 1029). -/
def BlockRelation.isMutual (r : BlockRelation) : Bool :=
  r.forward && r.backward

/-- The key `` `${hostA}|${hostB}` `` over the sorted pair (lines 999-1003). -/
def blockKey (f : FederationObservation) : String :=
  (sortedPair f.sourceHost f.targetHost).1 ++ "|" ++ (sortedPair f.sourceHost f.targetHost).2

/-- The default relation created on first sight of a key (lines 1005-1012). -/
def blockInit (f : FederationObservation) : BlockRelation :=
  { hostA := (sortedPair f.sourceHost f.targetHost).1
    hostB := (sortedPair f.sourceHost f.targetHost).2
    forward := false
    backward := false
    isBlocked := false
    isSuspended := false }

/-- The per-observation update (lines 1014-1021): record the direction and
take the union of the flags. -/
def blockStep (r : BlockRelation) (f : FederationObservation) : BlockRelation :=
  { r with
    forward := if f.sourceHost < f.targetHost then true else r.forward
    backward := if f.sourceHost < f.targetHost then r.backward else true
    isBlocked := r.isBlocked || f.isBlocked
    isSuspended := r.isSuspended || f.isSuspended }

/-- The blocked observations that pass the endpoint filter (lines 994-997). -/
def allowedBlocked (servers : List ServerRecord) (feds : List FederationObservation) :
    List FederationObservation :=
  (blockedFederations feds).filter (fun f =>
    hostAllowed servers feds f.sourceHost && hostAllowed servers feds f.targetHost)

/-- `map.get(key) || default; ...; map.set(key, existing)` for one
observation, on the insertion-ordered association list. -/
def insertBlock (m : List (String × BlockRelation)) (f : FederationObservation) :
    List (String × BlockRelation) :=
  match m with
  | [] => [(blockKey f, blockStep (blockInit f) f)]
  | (k, r) :: rest =>
    if k = blockKey f then (k, blockStep r f) :: rest
    else (k, r) :: insertBlock rest f

/-- The `blockRelationMap` (lines 984-1024). -/
def blockRelationMap (servers : List ServerRecord) (feds : List FederationObservation) :
    List (String × BlockRelation) :=
  (allowedBlocked servers feds).foldl insertBlock []

/-- The per-pair block relations the blocked edges are generated from
(lines 1026-1045). -/
def blockRelations (servers : List ServerRecord) (feds : List FederationObservation) :
    List BlockRelation :=
  (blockRelationMap servers feds).map (·.2)

/-! ### Connectivity probing (lines 384-517) -/

/-- One directional probe result (`{ reachable, error?, latency? }`). -/
structure ConnectivityResult where
  reachable : Bool
  error : Option String
  latency : Option ℚ
deriving DecidableEq, Repr

/-- The key `` `${source}->${target}` `` of `connectivityResults` (line 433). -/
def dirKey (src tgt : String) : String :=
  src ++ "->" ++ tgt

/-- JS `Map.set` with overwrite semantics on an association list. -/
def mapSet (m : List (String × ConnectivityResult)) (k : String) (v : ConnectivityResult) :
    List (String × ConnectivityResult) :=
  match m with
  | [] => [(k, v)]
  | (k', v') :: rest =>
    if k' = k then (k, v) :: rest else (k', v') :: mapSet rest k v

/-- Outcome of the client-side `fetch('/api/connectivity', ...)` for one
pair (lines 399-428): a successful 2xx response carrying the two
directional results, a non-2xx response, or a thrown fetch error. -/
inductive ProbeOutcome where
  | ok (forward backward : ConnectivityResult)
  | httpError
  | fetchError
deriving DecidableEq, Repr

/-- The pair result produced by the probe callback (lines 399-428): a non-2xx
response yields both directions unreachable with error `API_ERROR`; a thrown
error yields both directions unreachable with error `FETCH_FAILED`. -/
def pairProbeResult : ProbeOutcome → ConnectivityResult × ConnectivityResult
  | .ok f b => (f, b)
  | .httpError => (⟨false, some "API_ERROR", none⟩, ⟨false, some "API_ERROR", none⟩)
  | .fetchError => (⟨false, some "FETCH_FAILED", none⟩, ⟨false, some "FETCH_FAILED", none⟩)

/-- Storing one pair's probe outcome into the results map (lines 430-443). -/
def storeResults (m : List (String × ConnectivityResult)) (src tgt : String)
    (o : ProbeOutcome) : List (String × ConnectivityResult) :=
  mapSet (mapSet m (dirKey src tgt) (pairProbeResult o).1) (dirKey tgt src) (pairProbeResult o).2

/-- A connectivity edge as injected by `addConnectivityEdges` (lines 490-505). -/
structure ConnectivityEdge where
  id : String
  source : String
  target : String
  weight : ℚ
  color : String
  opacity : ℚ
  isMutualOk : Bool
  forwardOk : Bool
  backwardOk : Bool
  forwardError : Option String
  backwardError : Option String
deriving DecidableEq, Repr

/-- The colour chosen for the combined pair (lines 480-488): cyan for
mutual-OK, orange when exactly one direction is reachable, purple for NG. -/
def connectivityColor (forwardOk backwardOk : Bool) : String :=
  if forwardOk && backwardOk then "#00d9ff"
  else if forwardOk || backwardOk then "#ffaa00"
  else "#a855f7"

/-- The body of the pair loop of `addConnectivityEdges` (lines 471-506):
skip the pair when neither direction has a result, otherwise build the edge. -/
def mkConnectivityEdge (results : List (String × ConnectivityResult))
    (hostA hostB : String) : Option ConnectivityEdge :=
  let fRes := results.lookup (dirKey hostA hostB)
  let bRes := results.lookup (dirKey hostB hostA)
  if fRes.isNone && bRes.isNone then none
  else
    let forwardOk := (fRes.map (·.reachable)).getD false
    let backwardOk := (bRes.map (·.reachable)).getD false
    some { id := "connectivity-" ++ hostA ++ "-" ++ hostB
           source := hostA
           target := hostB
           weight := 4
           color := connectivityColor forwardOk backwardOk
           opacity := 7/10
           isMutualOk := forwardOk && backwardOk
           forwardOk := forwardOk
           backwardOk := backwardOk
           forwardError := fRes.bind (·.error)
           backwardError := bRes.bind (·.error) }

/-- The `i < j` double loop over the viewpoint list (lines 466-467). -/
def allPairs : List String → List (String × String)
  | [] => []
  | x :: xs => xs.map (fun y => (x, y)) ++ allPairs xs

/-- `addConnectivityEdges` (lines 451-517) as a function of the *current*
viewpoint list and the results map: it reads the live `viewpointServers`
at completion time, so a stale probe's results are only ever keyed against
the current viewpoint pairs. -/
def connectivityEdges (viewpoints : List String)
    (results : List (String × ConnectivityResult)) : List ConnectivityEdge :=
  if viewpoints.length < 2 then []
  else (allPairs viewpoints).filterMap (fun p => mkConnectivityEdge results p.1 p.2)

/-- The tooltip relation label for an edge (lines 1549-1565 and 1628-1642). -/
def edgeRelationLabel (isConnectivity isMutualOk forwardOk backwardOk
    isSuspended isBlocked : Bool) : String :=
  if isConnectivity then
    if isMutualOk then "connectivity-ok"
    else if forwardOk || backwardOk then "connectivity-partial"
    else "connectivity-ng"
  else if isSuspended then "suspended"
  else if isBlocked then "blocked"
  else "federation"

/-! ### Selection state machine (lines 1422-1505) -/

/-- The externally visible effects of a tap: `activate` is the
`window.open` navigation of line 1440, `selected` is `onSelectServer`
with a non-null server payload (lines 1467-1490), `cleared` is
`onSelectServer(null, null)` (line 1443). -/
inductive TapEvent where
  | activate (host : String)
  | selected (host : String)
  | cleared
deriving DecidableEq, Repr

/-- The node tap handler (lines 1426-1492) on the selection state
(`selectedNode`, modelled as `Option String`): a tap on the already
selected node navigates to the server and clears the selection; any other
tap selects the node (clearing a previous selection's highlight first). -/
def tapNode (sel : Option String) (h : String) : Option String × List TapEvent :=
  match sel with
  | some s =>
    if s = h then (none, [.activate h, .cleared])
    else (some h, [.selected h])
  | none => (some h, [.selected h])

/-- Number of `activate` events in a tap's output. -/
def countActivate (evs : List TapEvent) : Nat :=
  (evs.filter (fun e => match e with | .activate _ => true | _ => false)).length

/-- Number of `selected` events in a tap's output. -/
def countSelected (evs : List TapEvent) : Nat :=
  (evs.filter (fun e => match e with | .selected _ => true | _ => false)).length

/-! ### Graph Model Builder: node set and node sizes (lines 1050-1155) -/

/-- JS `Set.add` on an insertion-ordered list. -/
def setAdd (l : List String) (x : String) : List String :=
  if l.contains x then l else l ++ [x]

/-- The `connectedHosts` set (lines 1050-1070): endpoints of deduplicated
activity edges, individually allowed hosts of blocked observations, and
every viewpoint host that is in the catalog. -/
def connectedHosts (servers : List ServerRecord) (feds : List FederationObservation)
    (viewpoints : List String) : List String :=
  let l1 := (edgeRecords servers feds).foldl
    (fun acc e => setAdd (setAdd acc e.source) e.target) []
  let l2 := (blockedFederations feds).foldl
    (fun acc f =>
      let acc1 := if hostAllowed servers feds f.sourceHost then setAdd acc f.sourceHost else acc
      if hostAllowed servers feds f.targetHost then setAdd acc1 f.targetHost else acc1) l1
  viewpoints.foldl
    (fun acc h => if (serverHostsOf servers).contains h then setAdd acc h else acc) l2

/-- `new Map(servers.map((s) => [s.host, s]))` (line 1073): a later record
with the same host overwrites an earlier one, so lookup returns the last. -/
def serverMapGet (servers : List ServerRecord) (h : String) : Option ServerRecord :=
  servers.reverse.find? (fun s => s.host == h)

/-- `allUserCounts` (lines 1076-1078): the `usersCount ?? 1` of the catalog
records whose host is visible. -/
def visibleUserCounts (servers : List ServerRecord) (feds : List FederationObservation)
    (viewpoints : List String) : List Nat :=
  (servers.filter (fun s => (connectedHosts servers feds viewpoints).contains s.host)).map
    (fun s => s.usersCount.getD 1)

/-- `Math.max(...allUserCounts, 1)` (line 1079). -/
def maxUsers (servers : List ServerRecord) (feds : List FederationObservation)
    (viewpoints : List String) : Nat :=
  (visibleUserCounts servers feds viewpoints).foldr max 1

/-- `Math.min(...allUserCounts, 1)` (line 1080). -/
def minUsers (servers : List ServerRecord) (feds : List FederationObservation)
    (viewpoints : List String) : Nat :=
  (visibleUserCounts servers feds viewpoints).foldr min 1

/-- `Math.log10`. -/
noncomputable def log10 (x : ℝ) : ℝ :=
  Real.logb 10 x

/-- `const logUserRange = logMaxUsers - logMinUsers || 1` (lines 1082-1084). -/
noncomputable def logUserRange (servers : List ServerRecord)
    (feds : List FederationObservation) (viewpoints : List String) : ℝ :=
  if log10 (maxUsers servers feds viewpoints + 1) - log10 (minUsers servers feds viewpoints + 1) = 0
  then 1
  else log10 (maxUsers servers feds viewpoints + 1) - log10 (minUsers servers feds viewpoints + 1)

/-- The node size computation (lines 1088-1120): a catalog host gets
`12 + 58 * (log10(users+1) - logMinUsers) / logUserRange`; an unknown host
gets the fixed size `10` (line 1115). -/
noncomputable def nodeSizeOf (servers : List ServerRecord)
    (feds : List FederationObservation) (viewpoints : List String) (host : String) : ℝ :=
  match serverMapGet servers host with
  | some s =>
    let users : Nat := s.usersCount.getD 1
    12 + (log10 (users + 1) - log10 (minUsers servers feds viewpoints + 1)) /
        logUserRange servers feds viewpoints * 58
  | none => 10

/-- A rendering-agnostic graph node; only the fields the claims are about
are modelled. -/
structure GraphNode where
  id : String
  size : ℝ
  isViewpoint : Bool

/-- The node list the graph is built from (lines 1086-1146). -/
noncomputable def buildNodes (servers : List ServerRecord)
    (feds : List FederationObservation) (viewpoints : List String) : List GraphNode :=
  (connectedHosts servers feds viewpoints).map (fun h =>
    { id := h
      size := nodeSizeOf servers feds viewpoints h
      isViewpoint := viewpoints.contains h })

/-! ### Definitions following the spec's words, for refinement comparison -/

/-- Modelled from the claim C3 wording: the weight formula with `min` the
*actual* minimum raw activity of the filtered set and
`range = max - min` clamped below by 1 (`max(range, 1)`). -/
noncomputable def c3SpecWeight (servers : List ServerRecord)
    (feds : List FederationObservation) (a : ℚ) : ℝ :=
  let l := activityList servers feds
  let actualMin : ℚ := match l with | [] => 0 | x :: xs => xs.foldr min x
  let actualMax : ℚ := match l with | [] => 0 | x :: xs => xs.foldr max x
  1 + Real.sqrt (((a : ℝ) - (actualMin : ℝ)) / (max ((actualMax : ℝ) - (actualMin : ℝ)) 1)) * 29

/-- Modelled from the claim C9 wording: every visible host's users count,
taking the catalog value when known and `1` when unknown. -/
def c9SpecUsersOf (servers : List ServerRecord) (host : String) : Nat :=
  ((serverMapGet servers host).map (fun s => s.usersCount.getD 1)).getD 1

/-- Modelled from the claim C9 wording: the users counts of the whole
currently visible node set (unknown hosts counting as 1). -/
def c9SpecVisibleCounts (servers : List ServerRecord) (feds : List FederationObservation)
    (viewpoints : List String) : List Nat :=
  (connectedHosts servers feds viewpoints).map (c9SpecUsersOf servers)

/-- Modelled from the claim C9 wording: node size as `log10(users+1)`
normalized against the min/max over the currently visible node set and
mapped into the 12-70 range, for unknown hosts as well. -/
noncomputable def c9SpecSize (servers : List ServerRecord)
    (feds : List FederationObservation) (viewpoints : List String) (host : String) : ℝ :=
  let counts := c9SpecVisibleCounts servers feds viewpoints
  let mn : Nat := match counts with | [] => 1 | c :: cs => cs.foldr min c
  let mx : Nat := match counts with | [] => 1 | c :: cs => cs.foldr max c
  let range : ℝ :=
    if log10 (mx + 1) - log10 (mn + 1) = 0 then 1 else log10 (mx + 1) - log10 (mn + 1)
  12 + (log10 (c9SpecUsersOf servers host + 1) - log10 (mn + 1)) / range * 58

/-! ### Concrete example inputs used by the claim evaluations -/

/-- Catalog for the dedup-key-collision input: the two target hosts. -/
def exS1 : List ServerRecord := [⟨"y-z.com", some 1⟩, ⟨"z.com", some 1⟩]

/-- Dedup-key-collision input: the pairs `(x.com, y-z.com)` and
`(x.com-y, z.com)` are distinct but share the key `"x.com-y-z.com"`;
the last two observations are two normal entries for the same unordered
pair with different raw activities. -/
def exF1 : List FederationObservation :=
  [⟨"x.com", "y-z.com", 100, 0, false, false⟩,
   ⟨"x.com-y", "z.com", 5, 0, false, false⟩,
   ⟨"x.com-y", "z.com", 3, 0, false, false⟩]

/-- Catalog for the single-observation input. -/
def exS3 : List ServerRecord := [⟨"b.example", none⟩]

/-- A single normal observation with raw activity 5. -/
def exF3 : List FederationObservation :=
  [⟨"a.example", "b.example", 5, 0, false, false⟩]

/-- A single self-referential normal observation. -/
def exF4 : List FederationObservation :=
  [⟨"a.example", "a.example", 3, 0, false, false⟩]

/-- The spec's end-to-end block scenario: `A→B` blocked, `B→A` suspended. -/
def exF5 : List FederationObservation :=
  [⟨"a.example", "b.example", 0, 0, true, false⟩,
   ⟨"b.example", "a.example", 0, 0, false, true⟩]

/-- Catalog for the node-size input: one known server with 100 users. -/
def exS9 : List ServerRecord := [⟨"a.example", some 100⟩]

/-- Node-size input: the unknown host `b.example` reports federating with
the known host `a.example`, so both become visible nodes. -/
def exF9 : List FederationObservation :=
  [⟨"b.example", "a.example", 5, 0, false, false⟩]

/-- A results map holding one directional probe result: forward reachable,
backward unknown. -/
def exR6 : List (String × ConnectivityResult) :=
  [(dirKey "a.example" "b.example", ⟨true, none, none⟩)]

/-- The connectivity edge `addConnectivityEdges` builds from `exR6` for the
pair `(a.example, b.example)`: partial (orange), not mutual-OK. -/
def exE6 : ConnectivityEdge :=
  ⟨"connectivity-a.example-b.example", "a.example", "b.example", 4, "#ffaa00", 7/10,
   false, true, false, none, none⟩

/-- The blocked observations that land in the block-relation map entry of
the unordered pair `(A, B)` (key `` `${A}|${B}` ``). -/
def pairBlockObs (servers : List ServerRecord) (feds : List FederationObservation)
    (A B : String) : List FederationObservation :=
  (allowedBlocked servers feds).filter (fun g => blockKey g == A ++ "|" ++ B)

/-! ### Helper lemmas -/

/-- String order facts are established through the character list order,
which the kernel can evaluate. -/
theorem strLt {a b : String} (h : a.toList < b.toList) : a < b :=
  String.lt_iff_toList_lt.mpr h

theorem foldr_min_le_of_mem {α : Type*} [LinearOrder α] {l : List α} {x : α} (a : α)
    (h : x ∈ l) : l.foldr min a ≤ x := by
  induction l with
  | nil => cases h
  | cons y ys ih =>
    rcases List.mem_cons.mp h with rfl | hmem
    · exact min_le_left _ _
    · exact le_trans (min_le_right _ _) (ih hmem)

theorem foldr_min_le_init {α : Type*} [LinearOrder α] (l : List α) (a : α) :
    l.foldr min a ≤ a := by
  induction l with
  | nil => exact le_refl a
  | cons y ys ih => exact le_trans (min_le_right _ _) ih

theorem le_foldr_max_of_mem {α : Type*} [LinearOrder α] {l : List α} {x : α} (a : α)
    (h : x ∈ l) : x ≤ l.foldr max a := by
  induction l with
  | nil => cases h
  | cons y ys ih =>
    rcases List.mem_cons.mp h with rfl | hmem
    · exact le_max_left _ _
    · exact le_trans (ih hmem) (le_max_right _ _)

theorem le_foldr_max_init {α : Type*} [LinearOrder α] (l : List α) (a : α) :
    a ≤ l.foldr max a := by
  induction l with
  | nil => exact le_refl a
  | cons y ys ih => exact le_trans ih (le_max_right _ _)

/-- Every value of the dedup map after one insertion either was already in
the map or carries the inserted entry's activity. -/
theorem mem_insertActivity {m : List (String × EdgeEntry)} {e : RawActivityEntry}
    {kv : String × EdgeEntry} (h : kv ∈ insertActivity m e) :
    kv ∈ m ∨ kv.2.activity = e.activity := by
  induction m with
  | nil =>
    rw [insertActivity] at h
    rcases List.mem_singleton.mp h with rfl
    exact Or.inr rfl
  | cons p rest ih =>
    rw [insertActivity] at h
    split at h
    · split at h
      · rcases List.mem_cons.mp h with rfl | hmem
        · exact Or.inr rfl
        · exact Or.inl (List.mem_cons_of_mem _ hmem)
      · exact Or.inl h
    · rcases List.mem_cons.mp h with rfl | hmem
      · exact Or.inl (List.mem_cons_self _ _)
      · rcases ih hmem with h' | h'
        · exact Or.inl (List.mem_cons_of_mem _ h')
        · exact Or.inr h'

/-- Every value of the folded dedup map carries an activity of a processed
entry (or of the initial map). -/
theorem mem_foldl_insertActivity {l : List RawActivityEntry}
    {m : List (String × EdgeEntry)} {kv : String × EdgeEntry}
    (h : kv ∈ l.foldl insertActivity m) :
    kv ∈ m ∨ ∃ x ∈ l, kv.2.activity = x.activity := by
  induction l generalizing m with
  | nil => exact Or.inl h
  | cons x xs ih =>
    rw [List.foldl_cons] at h
    rcases ih h with h' | h'
    · rcases mem_insertActivity h' with h'' | h''
      · exact Or.inl h''
      · exact Or.inr ⟨x, List.mem_cons_self _ _, h''⟩
    · rcases h' with ⟨y, hy, hact⟩
      exact Or.inr ⟨y, List.mem_cons_of_mem _ hy, hact⟩

/-- The activity stored on any deduplicated edge is one of the raw
activities of the filtered input. -/
theorem edgeRecords_activity_mem {servers : List ServerRecord}
    {feds : List FederationObservation} {r : EdgeEntry}
    (h : r ∈ edgeRecords servers feds) :
    r.activity ∈ activityList servers feds := by
  rw [edgeRecords] at h
  rcases List.mem_map.mp h with ⟨kv, hkv, rfl⟩
  rcases mem_foldl_insertActivity hkv with h' | ⟨x, hx, hact⟩
  · cases h'
  · rw [activityList, hact]
    exact List.mem_map_of_mem _ hx

/-- The clamped range is at least 1, so the `|| 1` fallback never fires and
the range is the clamped max minus the clamped min. -/
theorem activityRange_eq (servers : List ServerRecord) (feds : List FederationObservation) :
    activityRange servers feds = maxActivity servers feds - minActivity servers feds ∧
    1 ≤ maxActivity servers feds - minActivity servers feds := by
  have hmin0 : minActivity servers feds ≤ 0 := foldr_min_le_init _ _
  have hmax1 : (1 : ℚ) ≤ maxActivity servers feds := le_foldr_max_init _ _
  have hd : (1 : ℚ) ≤ maxActivity servers feds - minActivity servers feds := by linarith
  exact ⟨by rw [activityRange, if_neg (by linarith)], hd⟩

/-- Core weight bound: the weight computed for any raw activity of the
filtered set lies in `[1, 30]`. -/
theorem weightOf_bounds {servers : List ServerRecord} {feds : List FederationObservation}
    {a : ℚ} (ha : a ∈ activityList servers feds) :
    1 ≤ weightOf servers feds a ∧ weightOf servers feds a ≤ 30 := by
  have hmin : minActivity servers feds ≤ a := foldr_min_le_of_mem _ ha
  have hmax : a ≤ maxActivity servers feds := le_foldr_max_of_mem _ ha
  obtain ⟨hr, hd⟩ := activityRange_eq servers feds
  have hrR : (1 : ℝ) ≤ (activityRange servers feds : ℝ) := by
    rw [hr]; exact_mod_cast hd
  have hrpos : (0 : ℝ) < (activityRange servers feds : ℝ) := by linarith
  have hx0 : 0 ≤ ((a : ℝ) - (minActivity servers feds : ℝ)) /
      (activityRange servers feds : ℝ) :=
    div_nonneg (by exact_mod_cast sub_nonneg.mpr hmin) hrpos.le
  have hx1 : ((a : ℝ) - (minActivity servers feds : ℝ)) /
      (activityRange servers feds : ℝ) ≤ 1 := by
    rw [div_le_one hrpos, hr]
    push_cast
    have : (a : ℝ) ≤ (maxActivity servers feds : ℝ) := by exact_mod_cast hmax
    linarith
  have hs0 := Real.sqrt_nonneg (((a : ℝ) - (minActivity servers feds : ℝ)) /
      (activityRange servers feds : ℝ))
  have hs1 := Real.sqrt_le_one.mpr hx1
  rw [weightOf]
  constructor <;> nlinarith

/-- Opacity derived from a weight in `[1, 30]` lies in `[0.3, 0.9]`. -/
theorem opacityOf_bounds {w : ℝ} (h1 : 1 ≤ w) (h2 : w ≤ 30) :
    (0.3 : ℝ) ≤ opacityOf w ∧ opacityOf w ≤ 0.9 := by
  rw [opacityOf]
  refine ⟨le_min (by linarith) (by norm_num), min_le_right _ _⟩

/-- Evaluation of the single-observation input: its one raw activity entry. -/
theorem rawActivities_ex3 :
    rawActivities exS3 exF3 = [⟨"a.example", "b.example", 5⟩] := by
  have hab : sortedPair "a.example" "b.example" = ("a.example", "b.example") := by
    rw [sortedPair, if_pos (strLt (by decide))]
  norm_num [rawActivities, normalFederations, hostAllowed, viewpointHostsOf,
    serverHostsOf, rawActivity, exS3, exF3, hab,
    List.filterMap_cons, List.filterMap_nil]

/-- Evaluation of the single-observation input: the activity list. -/
theorem activityList_ex3 : activityList exS3 exF3 = [5] := by
  rw [activityList, rawActivities_ex3]; norm_num

/-- Evaluation of the single-observation input: the deduplicated edges. -/
theorem edgeRecords_ex3 :
    edgeRecords exS3 exF3 = [⟨"a.example", "b.example", 5⟩] := by
  rw [edgeRecords, edgeMap, rawActivities_ex3]
  norm_num [insertActivity, RawActivityEntry.key, List.foldl_cons, List.foldl_nil]

/-- Evaluation of the single-observation input: the clamped minimum is 0,
not the actual minimum 5. -/
theorem minActivity_ex3 : minActivity exS3 exF3 = 0 := by
  rw [minActivity, activityList_ex3]; norm_num

/-- Evaluation of the single-observation input: the clamped maximum. -/
theorem maxActivity_ex3 : maxActivity exS3 exF3 = 5 := by
  rw [maxActivity, activityList_ex3]; norm_num

/-- Evaluation of the single-observation input: the range. -/
theorem activityRange_ex3 : activityRange exS3 exF3 = 5 := by
  rw [activityRange, minActivity_ex3, maxActivity_ex3]; norm_num

/-- `log10` is monotone on positive reals. -/
theorem log10_le_log10 {x y : ℝ} (hx : 0 < x) (hxy : x ≤ y) : log10 x ≤ log10 y :=
  Real.logb_le_logb_of_le (by norm_num) hx hxy

/-- Evaluation of the node-size input: the single raw activity entry. -/
theorem rawActivities_ex9 :
    rawActivities exS9 exF9 = [⟨"a.example", "b.example", 5⟩] := by
  have hab : sortedPair "b.example" "a.example" = ("a.example", "b.example") := by
    rw [sortedPair, if_neg (lt_asymm (strLt (by decide)))]
  norm_num [rawActivities, normalFederations, hostAllowed, viewpointHostsOf,
    serverHostsOf, rawActivity, exS9, exF9, hab,
    List.filterMap_cons, List.filterMap_nil]

/-- Evaluation of the node-size input: the deduplicated edges. -/
theorem edgeRecords_ex9 :
    edgeRecords exS9 exF9 = [⟨"a.example", "b.example", 5⟩] := by
  rw [edgeRecords, edgeMap, rawActivities_ex9]
  norm_num [insertActivity, RawActivityEntry.key, List.foldl_cons, List.foldl_nil]

/-- Evaluation of the node-size input: the visible host set. -/
theorem connectedHosts_ex9 :
    connectedHosts exS9 exF9 [] = ["a.example", "b.example"] := by
  have hba : (("b.example" : String) == "a.example") = false := by decide
  have hbl : blockedFederations exF9 = [] := by
    norm_num [blockedFederations, exF9]
  have hne : ("b.example" : String) ≠ "a.example" := by decide
  simp only [connectedHosts, edgeRecords_ex9, hbl]
  norm_num [setAdd, List.foldl_cons, List.foldl_nil, hba, hne]

/-- Fields of a connectivity edge produced by the pair loop. -/
theorem mkConnectivityEdge_fields {results : List (String × ConnectivityResult)}
    {a b : String} {e : ConnectivityEdge}
    (h : mkConnectivityEdge results a b = some e) :
    e.source = a ∧ e.target = b ∧ e.isMutualOk = (e.forwardOk && e.backwardOk) ∧
    e.color = connectivityColor e.forwardOk e.backwardOk := by
  simp only [mkConnectivityEdge] at h
  split at h
  · exact absurd h (by simp)
  · obtain rfl := Option.some.inj h
    exact ⟨rfl, rfl, rfl, rfl⟩

/-! ### Claim theorems -/

/-- C4 counterexample: the input consisting of a single normal
self-referential observation (`sourceHost = targetHost = "a.example"`) is
*not* dropped: the Edge Normalizer emits an activity edge whose source
equals its target, refuting the claim that the built graph never contains
such an edge. -/
theorem C4_loopEdge_counter :
    (edgeRecords [] exF4).filter (fun e => e.source == e.target) =
      [⟨"a.example", "a.example", 3⟩] := by
  norm_num [edgeRecords, edgeMap, rawActivities, normalFederations, hostAllowed,
    viewpointHostsOf, serverHostsOf, sortedPair, rawActivity, insertActivity,
    RawActivityEntry.key, exF4, lt_irrefl, List.filter]

/-- C4 amended: self-referential observations are not filtered anywhere in
`initGraph`; a normal observation with `sourceHost = targetHost = h` (whose
endpoints are automatically allowed, since its source is a viewpoint host)
always yields exactly the degenerate loop edge on `h`. -/
theorem C4_selfLoopKept (h : String) (u n : Nat) :
    edgeRecords [] [⟨h, h, u, n, false, false⟩] =
      [⟨h, h, (u : ℚ) + (n : ℚ) / 10⟩] := by
  simp [edgeRecords, edgeMap, rawActivities, normalFederations, hostAllowed,
        viewpointHostsOf, serverHostsOf, sortedPair, rawActivity, insertActivity,
        lt_irrefl]

/-- C8: tapping a node while it is already the selected node returns the
selection state to `Empty` and emits exactly one `activate` event (the
`window.open` navigation) and no `selected` event, while the first tap had
entered `NodeSelected h` with a `selected` event. -/
theorem C8_tapToggle (h : String) :
    tapNode none h = (some h, [.selected h]) ∧
    (tapNode (some h) h).1 = none ∧
    countActivate (tapNode (some h) h).2 = 1 ∧
    countSelected (tapNode (some h) h).2 = 0 := by
  refine ⟨rfl, ?_, ?_, ?_⟩ <;> simp [tapNode, countActivate, countSelected]

/-- C6: the combined classification of a viewpoint pair is cyan
(mutual-OK) iff both directions are reachable, orange (partial) iff
exactly one is, and purple (NG) iff neither is — the three styles are
distinct string constants — and every produced connectivity edge carries
`isMutualOk = forwardOk && backwardOk` and the colour computed from
exactly this tri-state; the hover/tap relation label agrees. -/
theorem C6_classification :
    (∀ f b s bl : Bool,
      ((connectivityColor f b = "#00d9ff") ↔ (f = true ∧ b = true)) ∧
      ((connectivityColor f b = "#ffaa00") ↔ (f ≠ b)) ∧
      ((connectivityColor f b = "#a855f7") ↔ (f = false ∧ b = false)) ∧
      ((edgeRelationLabel true (f && b) f b s bl = "connectivity-ok") ↔ (f = true ∧ b = true)) ∧
      ((edgeRelationLabel true (f && b) f b s bl = "connectivity-partial") ↔ (f ≠ b)) ∧
      ((edgeRelationLabel true (f && b) f b s bl = "connectivity-ng") ↔ (f = false ∧ b = false))) ∧
    (∀ results a b e, mkConnectivityEdge results a b = some e →
      e.isMutualOk = (e.forwardOk && e.backwardOk) ∧
      e.color = connectivityColor e.forwardOk e.backwardOk) := by
  constructor
  · decide
  · intro results a b e h
    exact ⟨(mkConnectivityEdge_fields h).2.2.1, (mkConnectivityEdge_fields h).2.2.2⟩

/-- C6 witness: a concrete pair with only the forward direction reachable
is coloured as partial, never as mutual-OK or NG. -/
theorem C6_classification_witness :
    (connectivityColor true false = "#ffaa00" ↔ (true : Bool) ≠ false) ∧
    exE6.isMutualOk = (exE6.forwardOk && exE6.backwardOk) ∧
    exE6.color = connectivityColor exE6.forwardOk exE6.backwardOk :=
  ⟨(C6_classification.1 true false false false).2.1,
   C6_classification.2 exR6 "a.example" "b.example" exE6
     (by
       have ha : ("connectivity-" ++ "a.example" ++ "-" ++ "b.example" : String) =
           "connectivity-a.example-b.example" := by decide
       have hb : (("b.example" ++ "->" ++ "a.example" : String) ==
           "a.example" ++ "->" ++ "b.example") = false := by decide
       norm_num [mkConnectivityEdge, exR6, exE6, dirKey, List.lookup,
         connectivityColor, ha, hb])⟩

/-- C7: `addConnectivityEdges` keys every produced edge off the *current*
viewpoint list; with the viewpoint set `{A, C}` no connectivity edge
touching a host `B` outside that set can be injected, whatever stale
results map a superseded probe completion has written. -/
theorem C7_staleProbe (A C B : String) (results : List (String × ConnectivityResult))
    (hBA : B ≠ A) (hBC : B ≠ C) :
    (connectivityEdges [A, C] results).filter
      (fun e => e.source == B || e.target == B) = [] := by
  unfold connectivityEdges
  rw [if_neg (by simp)]
  have hp : allPairs [A, C] = [(A, C)] := rfl
  rw [hp]
  cases hmk : mkConnectivityEdge results A C with
  | none => simp [List.filterMap, hmk]
  | some e =>
    have hf := mkConnectivityEdge_fields hmk
    have hs : (e.source == B) = false := by
      rw [hf.1]; exact beq_eq_false_iff_ne.mpr (Ne.symm hBA)
    have ht : (e.target == B) = false := by
      rw [hf.2.1]; exact beq_eq_false_iff_ne.mpr (Ne.symm hBC)
    simp [List.filterMap, hmk, hs, ht]

/-- C7 witness: viewpoint set `{a.example, c.example}`, stale results from a
probe of the pair `(a.example, b.example)` plus a current result for the
pair `(a.example, c.example)`: no edge touching `b.example` appears. -/
theorem C7_staleProbe_witness :
    (connectivityEdges ["a.example", "c.example"]
        (storeResults (storeResults [] "a.example" "b.example"
          (.ok ⟨true, none, none⟩ ⟨true, none, none⟩))
          "a.example" "c.example" .httpError)).filter
      (fun e => e.source == "b.example" || e.target == "b.example") = [] :=
  C7_staleProbe "a.example" "c.example" "b.example" _ (by decide) (by decide)

/-- C10: when the client call for a probed pair fails outright, the pair is
not dropped: a non-2xx response records both directions unreachable with
error `API_ERROR`, a thrown fetch error records both with `FETCH_FAILED`,
and in both cases exactly one connectivity edge, classified NG (purple),
is still produced for the pair. -/
theorem C10_probeFailure (A B : String) :
    connectivityEdges [A, B] (storeResults [] A B .httpError) =
      [⟨"connectivity-" ++ A ++ "-" ++ B, A, B, 4, "#a855f7", 7/10,
        false, false, false, some "API_ERROR", some "API_ERROR"⟩] ∧
    connectivityEdges [A, B] (storeResults [] A B .fetchError) =
      [⟨"connectivity-" ++ A ++ "-" ++ B, A, B, 4, "#a855f7", 7/10,
        false, false, false, some "FETCH_FAILED", some "FETCH_FAILED"⟩] := by
  have key : ∀ (k1 k2 : String) (v : ConnectivityResult),
      (mapSet (mapSet [] k1 v) k2 v).lookup k1 = some v ∧
      (mapSet (mapSet [] k1 v) k2 v).lookup k2 = some v := by
    intro k1 k2 v
    by_cases h : k1 = k2 <;> simp [mapSet, List.lookup, h] <;>
      cases (k2 == k1) <;> rfl
  constructor <;>
  · unfold connectivityEdges
    rw [if_neg (by simp)]
    have hp : allPairs [A, B] = [(A, B)] := rfl
    rw [hp]
    simp only [List.filterMap, mkConnectivityEdge, storeResults, pairProbeResult,
      (key (dirKey A B) (dirKey B A) _).1, (key (dirKey A B) (dirKey B A) _).2]
    rfl

/-- C1 evaluation at the failing input: the observations
`(x.com → y-z.com)` and twice `(x.com-y → z.com)` are all normal, all pass
the endpoint filter, and the last two are entries for the same unordered
pair `(x.com-y, z.com)` with different raw activities (5 and 3); yet the
dedup map keys both pairs by the ambiguous string `"x.com-y-z.com"`, so
the normalizer outputs no edge at all for `(x.com-y, z.com)` — only the
single conflated edge of the first pair survives. -/
theorem C1_keyCollision :
    ((rawActivities exS1 exF1).filter
        (fun e => e.source == "x.com-y" && e.target == "z.com")).map (·.activity) = [5, 3] ∧
    edgeRecords exS1 exF1 = [⟨"x.com", "y-z.com", 100⟩] ∧
    (edgeRecords exS1 exF1).filter
      (fun e => e.source == "x.com-y" && e.target == "z.com") = [] := by
  have h1 : sortedPair "x.com" "y-z.com" = ("x.com", "y-z.com") := by
    rw [sortedPair, if_pos (strLt (by decide))]
  have h2 : sortedPair "x.com-y" "z.com" = ("x.com-y", "z.com") := by
    rw [sortedPair, if_pos (strLt (by decide))]
  have hraw : rawActivities exS1 exF1 =
      [⟨"x.com", "y-z.com", 100⟩, ⟨"x.com-y", "z.com", 5⟩, ⟨"x.com-y", "z.com", 3⟩] := by
    norm_num [rawActivities, normalFederations, hostAllowed, viewpointHostsOf,
      serverHostsOf, rawActivity, exS1, exF1, h1, h2,
      List.filterMap_cons, List.filterMap_nil]
  have hk : ("x.com-y" ++ "-" ++ "z.com" : String) = "x.com" ++ "-" ++ "y-z.com" := by decide
  have hrec : edgeRecords exS1 exF1 = [⟨"x.com", "y-z.com", 100⟩] := by
    rw [edgeRecords, edgeMap, hraw]
    norm_num [insertActivity, RawActivityEntry.key, hk, List.foldl_cons, List.foldl_nil]
  have e1 : (("x.com" : String) == "x.com-y") = false := by decide
  refine ⟨?_, hrec, ?_⟩
  · rw [hraw]; norm_num [List.filter_cons, List.filter_nil, e1]
  · rw [hrec]; norm_num [List.filter_cons, List.filter_nil, e1]

/-- C3 counterexample: for the single-observation input with raw activity 5
the filtered-set minimum is 5, but the code's weight for the (unique) edge
of activity 5 is 30, not the 1 demanded by the claim's formula with `min`
the actual filtered-set minimum — the code clamps `min` with
`Math.min(..., 0)` and `max` with `Math.max(..., 1)`. -/
theorem C3_minWeight_counter :
    edgeRecords exS3 exF3 = [⟨"a.example", "b.example", 5⟩] ∧
    activityList exS3 exF3 = [5] ∧
    weightOf exS3 exF3 5 = 30 ∧
    c3SpecWeight exS3 exF3 5 = 1 ∧
    (30 : ℝ) ≠ 1 := by
  refine ⟨edgeRecords_ex3, activityList_ex3, ?_, ?_, by norm_num⟩
  · rw [weightOf, minActivity_ex3, activityRange_ex3]
    rw [show (((5 : ℚ) : ℝ) - ((0 : ℚ) : ℝ)) / ((5 : ℚ) : ℝ) = 1 by norm_num]
    rw [Real.sqrt_one]
    norm_num
  · simp only [c3SpecWeight, activityList_ex3, List.foldr]
    simp [sub_self, zero_div, Real.sqrt_zero]

/-- C3 amended: the Edge Normalizer does not track the actual filtered-set
extrema: the tracked minimum is clamped to at most 0 (`Math.min(..., 0)`)
and the tracked maximum to at least 1 (`Math.max(..., 1)`), and the weight
formula `1 + sqrt((a - min) / range) * 29` uses those clamped values; an
edge's weight is 1 exactly when its raw activity equals the *clamped*
minimum (for all-positive activity sets the minimum-activity edge
therefore gets a weight above 1, not 1). -/
theorem C3_clampedMin (servers : List ServerRecord) (feds : List FederationObservation) :
    (∀ q ∈ activityList servers feds, minActivity servers feds ≤ q) ∧
    minActivity servers feds ≤ 0 ∧
    (∀ q ∈ activityList servers feds, q ≤ maxActivity servers feds) ∧
    1 ≤ maxActivity servers feds ∧
    weightOf servers feds (minActivity servers feds) = 1 := by
  refine ⟨fun q hq => foldr_min_le_of_mem _ hq, foldr_min_le_init _ _,
    fun q hq => le_foldr_max_of_mem _ hq, le_foldr_max_init _ _, ?_⟩
  rw [weightOf, sub_self, zero_div, Real.sqrt_zero, zero_mul, add_zero]

/-- C3 witness: on the single-observation input the clamped minimum is
below the only activity 5 and below 0, the clamped maximum is above 5 and
above 1, and the weight at the clamped minimum is 1. -/
theorem C3_clampedMin_witness :
    minActivity exS3 exF3 ≤ 5 ∧ minActivity exS3 exF3 ≤ 0 ∧
    (5 : ℚ) ≤ maxActivity exS3 exF3 ∧ 1 ≤ maxActivity exS3 exF3 ∧
    weightOf exS3 exF3 (minActivity exS3 exF3) = 1 :=
  ⟨(C3_clampedMin exS3 exF3).1 5 (by simp [activityList_ex3]),
   (C3_clampedMin exS3 exF3).2.1,
   (C3_clampedMin exS3 exF3).2.2.1 5 (by simp [activityList_ex3]),
   (C3_clampedMin exS3 exF3).2.2.2.1,
   (C3_clampedMin exS3 exF3).2.2.2.2⟩

/-- C2: every weight the Edge Normalizer derives for a deduplicated
activity edge lies in `[1, 30]` and every derived opacity in `[0.3, 0.9]`
(the non-emptiness of the claim is implicit: an edge only exists when the
filtered observation set is non-empty). -/
theorem C2_weightOpacityBounds (servers : List ServerRecord)
    (feds : List FederationObservation) (ae : ActivityEdge)
    (hae : ae ∈ activityEdges servers feds) :
    1 ≤ ae.weight ∧ ae.weight ≤ 30 ∧
    (0.3 : ℝ) ≤ ae.opacity ∧ ae.opacity ≤ 0.9 := by
  rw [activityEdges] at hae
  rcases List.mem_map.mp hae with ⟨r, hr, rfl⟩
  have hb := weightOf_bounds (edgeRecords_activity_mem hr)
  have ho := opacityOf_bounds hb.1 hb.2
  exact ⟨hb.1, hb.2, ho.1, ho.2⟩

/-- C2 witness: the bounds hold for the edge derived from the
single-observation input. -/
theorem C2_weightOpacityBounds_witness :
    1 ≤ (mkActivityEdge exS3 exF3 ⟨"a.example", "b.example", 5⟩).weight ∧
    (mkActivityEdge exS3 exF3 ⟨"a.example", "b.example", 5⟩).weight ≤ 30 ∧
    (0.3 : ℝ) ≤ (mkActivityEdge exS3 exF3 ⟨"a.example", "b.example", 5⟩).opacity ∧
    (mkActivityEdge exS3 exF3 ⟨"a.example", "b.example", 5⟩).opacity ≤ 0.9 :=
  C2_weightOpacityBounds exS3 exF3 _
    (List.mem_map_of_mem _ (by simp [edgeRecords_ex3]))

/-- C9 counterexample: on the node-size input the unknown host `b.example`
is visible, but its node size is the fixed 10 — not the value the claim's
log-scale normalization (which would treat it as `usersCount = 1` and give
size 12, the bottom of the claimed 12-70 range) produces. -/
theorem C9_unknownSize_counter :
    connectedHosts exS9 exF9 [] = ["a.example", "b.example"] ∧
    nodeSizeOf exS9 exF9 [] "b.example" = 10 ∧
    c9SpecSize exS9 exF9 [] "b.example" = 12 ∧
    (10 : ℝ) ≠ 12 := by
  refine ⟨connectedHosts_ex9, ?_, ?_, by norm_num⟩
  · have hget : serverMapGet exS9 "b.example" = none := by decide
    simp [nodeSizeOf, hget]
  · have hcounts : c9SpecVisibleCounts exS9 exF9 [] = [100, 1] := by
      have hga : c9SpecUsersOf exS9 "a.example" = 100 := by decide
      have hgb : c9SpecUsersOf exS9 "b.example" = 1 := by decide
      rw [c9SpecVisibleCounts, connectedHosts_ex9]
      norm_num [hga, hgb]
    have hgb : c9SpecUsersOf exS9 "b.example" = 1 := by decide
    simp only [c9SpecSize, hcounts, hgb, List.foldr]
    norm_num

/-- C9 amended: a host missing from the catalog gets the fixed node size
10 (it does not participate in the log-scale normalization), while a
catalog host that is visible gets `12 + 58 * (log10(users+1) - log10(min+1))
/ logRange` with min/max taken over the *catalog* records of the visible
set and clamped to include 1, which always lands in the 12-70 range. -/
theorem C9_nodeSizes (servers : List ServerRecord) (feds : List FederationObservation)
    (viewpoints : List String) (host : String) :
    (serverMapGet servers host = none → nodeSizeOf servers feds viewpoints host = 10) ∧
    (∀ s, serverMapGet servers host = some s →
      host ∈ connectedHosts servers feds viewpoints →
      12 ≤ nodeSizeOf servers feds viewpoints host ∧
      nodeSizeOf servers feds viewpoints host ≤ 70) := by
  constructor
  · intro h
    simp [nodeSizeOf, h]
  · intro s hs hmem
    have hhost : s.host = host := by
      have := List.find?_some hs
      exact beq_iff_eq.mp this
    have hmemS : s ∈ servers := List.mem_reverse.mp (List.mem_of_find?_eq_some hs)
    have hcount : s.usersCount.getD 1 ∈ visibleUserCounts servers feds viewpoints := by
      rw [visibleUserCounts]
      refine List.mem_map_of_mem _ (List.mem_filter.mpr ⟨hmemS, ?_⟩)
      rw [hhost]
      exact List.elem_eq_true_of_mem hmem
    have hmn : minUsers servers feds viewpoints ≤ s.usersCount.getD 1 :=
      foldr_min_le_of_mem _ hcount
    have hmx : s.usersCount.getD 1 ≤ maxUsers servers feds viewpoints :=
      le_foldr_max_of_mem _ hcount
    have hlog1 : log10 ((minUsers servers feds viewpoints : ℝ) + 1) ≤
        log10 ((s.usersCount.getD 1 : ℝ) + 1) := by
      refine log10_le_log10 (by positivity) ?_
      have : ((minUsers servers feds viewpoints : ℝ)) ≤ (s.usersCount.getD 1 : ℝ) := by
        exact_mod_cast hmn
      linarith
    have hlog2 : log10 ((s.usersCount.getD 1 : ℝ) + 1) ≤
        log10 ((maxUsers servers feds viewpoints : ℝ) + 1) := by
      refine log10_le_log10 (by positivity) ?_
      have : ((s.usersCount.getD 1 : ℝ)) ≤ (maxUsers servers feds viewpoints : ℝ) := by
        exact_mod_cast hmx
      linarith
    have hsz : nodeSizeOf servers feds viewpoints host =
        12 + (log10 ((s.usersCount.getD 1 : ℝ) + 1) -
          log10 ((minUsers servers feds viewpoints : ℝ) + 1)) /
          logUserRange servers feds viewpoints * 58 := by
      simp [nodeSizeOf, hs]
    rw [hsz]
    by_cases h0 : log10 ((maxUsers servers feds viewpoints : ℝ) + 1) -
        log10 ((minUsers servers feds viewpoints : ℝ) + 1) = 0
    · have heq : log10 ((s.usersCount.getD 1 : ℝ) + 1) =
          log10 ((minUsers servers feds viewpoints : ℝ) + 1) :=
        le_antisymm (by linarith) hlog1
      rw [logUserRange, if_pos h0, heq, sub_self, zero_div, zero_mul]
      norm_num
    · have hrg : logUserRange servers feds viewpoints =
          log10 ((maxUsers servers feds viewpoints : ℝ) + 1) -
          log10 ((minUsers servers feds viewpoints : ℝ) + 1) := by
        rw [logUserRange, if_neg h0]
      have hrpos : 0 < logUserRange servers feds viewpoints := by
        rw [hrg]
        rcases lt_or_eq_of_le (sub_nonneg.mpr (le_trans hlog1 hlog2)) with h | h
        · exact h
        · exact absurd h.symm h0
      have hnum0 : 0 ≤ log10 ((s.usersCount.getD 1 : ℝ) + 1) -
          log10 ((minUsers servers feds viewpoints : ℝ) + 1) := sub_nonneg.mpr hlog1
      have hnum1 : log10 ((s.usersCount.getD 1 : ℝ) + 1) -
          log10 ((minUsers servers feds viewpoints : ℝ) + 1) ≤
          logUserRange servers feds viewpoints := by
        rw [hrg]; linarith
      have hr0 : 0 ≤ (log10 ((s.usersCount.getD 1 : ℝ) + 1) -
          log10 ((minUsers servers feds viewpoints : ℝ) + 1)) /
          logUserRange servers feds viewpoints := div_nonneg hnum0 hrpos.le
      have hr1 : (log10 ((s.usersCount.getD 1 : ℝ) + 1) -
          log10 ((minUsers servers feds viewpoints : ℝ) + 1)) /
          logUserRange servers feds viewpoints ≤ 1 := by
        rw [div_le_one hrpos]; exact hnum1
      constructor <;> nlinarith

/-- C9 witness: on the node-size input the unknown host gets size 10 and
the known host's size lies in the 12-70 range. -/
theorem C9_nodeSizes_witness :
    nodeSizeOf exS9 exF9 [] "b.example" = 10 ∧
    12 ≤ nodeSizeOf exS9 exF9 [] "a.example" ∧
    nodeSizeOf exS9 exF9 [] "a.example" ≤ 70 :=
  ⟨(C9_nodeSizes exS9 exF9 [] "b.example").1 (by decide),
   ((C9_nodeSizes exS9 exF9 [] "a.example").2 ⟨"a.example", some 100⟩ (by decide)
      (by simp [connectedHosts_ex9])).1,
   ((C9_nodeSizes exS9 exF9 [] "a.example").2 ⟨"a.example", some 100⟩ (by decide)
      (by simp [connectedHosts_ex9])).2⟩

/-! ### Block-relation map machinery (for C5) -/

/-- Looking up a key after one insertion: the inserted observation's key is
updated (or initialised), every other key is untouched. -/
theorem lookup_insertBlock (m : List (String × BlockRelation)) (f : FederationObservation)
    (k : String) :
    (insertBlock m f).lookup k =
      if blockKey f = k then some (blockStep ((m.lookup k).getD (blockInit f)) f)
      else m.lookup k := by
  induction m with
  | nil =>
    by_cases h : blockKey f = k
    · subst h; simp [insertBlock, List.lookup]
    · have hbeq : (k == blockKey f) = false := beq_eq_false_iff_ne.mpr (Ne.symm h)
      simp [insertBlock, List.lookup, hbeq, h]
  | cons p rest ih =>
    obtain ⟨k', r⟩ := p
    by_cases h1 : k' = blockKey f
    · rw [insertBlock, if_pos h1]
      by_cases h2 : k = k'
      · have hb : (k == k') = true := beq_iff_eq.mpr h2
        have hfk : blockKey f = k := by rw [← h1, h2]
        simp only [List.lookup_cons, hb, if_pos hfk, Option.getD_some]
      · have hb : (k == k') = false := beq_eq_false_iff_ne.mpr h2
        have hfk : ¬ (blockKey f = k) := by
          rw [← h1]; exact fun hh => h2 hh.symm
        simp only [List.lookup_cons, hb, if_neg hfk]
    · rw [insertBlock, if_neg h1]
      by_cases h2 : k = k'
      · have hb : (k == k') = true := beq_iff_eq.mpr h2
        have hfk : ¬ (blockKey f = k) := fun hh => h1 (h2.symm.trans hh.symm)
        simp only [List.lookup_cons, hb, if_neg hfk]
      · have hb : (k == k') = false := beq_eq_false_iff_ne.mpr h2
        simp only [List.lookup_cons, hb]
        exact ih

/-- Looking up a key after the whole fold is a fold over the per-key
updates. -/
theorem lookup_foldl_insertBlock (l : List FederationObservation)
    (m : List (String × BlockRelation)) (k : String) :
    (l.foldl insertBlock m).lookup k =
      l.foldl (fun acc f => if blockKey f = k then
          some (blockStep (acc.getD (blockInit f)) f) else acc) (m.lookup k) := by
  induction l generalizing m with
  | nil => rfl
  | cons f fs ih =>
    rw [List.foldl_cons, List.foldl_cons, ih, lookup_insertBlock]

/-- The per-key fold only looks at the observations whose key matches. -/
theorem foldl_blockAcc_filter (l : List FederationObservation) (k : String)
    (acc : Option BlockRelation) :
    l.foldl (fun acc f => if blockKey f = k then
        some (blockStep (acc.getD (blockInit f)) f) else acc) acc =
      (l.filter (fun f => blockKey f == k)).foldl
        (fun acc f => some (blockStep (acc.getD (blockInit f)) f)) acc := by
  induction l generalizing acc with
  | nil => rfl
  | cons f fs ih =>
    by_cases h : blockKey f = k
    · simp only [List.foldl_cons, List.filter_cons, h, if_pos rfl, beq_self_eq_true,
        ite_true, List.foldl_cons]
      exact ih _
    · have hbeq : (blockKey f == k) = false := beq_eq_false_iff_ne.mpr h
      simp only [List.foldl_cons, List.filter_cons, if_neg h, hbeq]
      exact ih _

/-- Once the accumulator holds a relation, the per-key fold is a plain
`blockStep` fold. -/
theorem foldl_someStep (gs : List FederationObservation) (r : BlockRelation) :
    gs.foldl (fun acc f => some (blockStep (acc.getD (blockInit f)) f)) (some r) =
      some (gs.foldl blockStep r) := by
  induction gs generalizing r with
  | nil => rfl
  | cons g gs ih => simp only [List.foldl_cons, Option.getD_some]; exact ih _

/-- Field view of a single `blockStep`. -/
theorem blockStep_fields (r : BlockRelation) (f : FederationObservation) :
    (blockStep r f).hostA = r.hostA ∧ (blockStep r f).hostB = r.hostB ∧
    (blockStep r f).isBlocked = (r.isBlocked || f.isBlocked) ∧
    (blockStep r f).isSuspended = (r.isSuspended || f.isSuspended) ∧
    (blockStep r f).forward = (r.forward || decide (f.sourceHost < f.targetHost)) ∧
    (blockStep r f).backward = (r.backward || !(decide (f.sourceHost < f.targetHost))) := by
  rw [blockStep]
  by_cases h : f.sourceHost < f.targetHost <;> simp [h]

/-- Field view of a `blockStep` fold: the direction flags and the
blocked/suspended flags accumulate as an `any` over the folded
observations. -/
theorem foldl_blockStep_fields (gs : List FederationObservation) (r : BlockRelation) :
    (gs.foldl blockStep r).hostA = r.hostA ∧
    (gs.foldl blockStep r).hostB = r.hostB ∧
    (gs.foldl blockStep r).isBlocked = (r.isBlocked || gs.any (·.isBlocked)) ∧
    (gs.foldl blockStep r).isSuspended = (r.isSuspended || gs.any (·.isSuspended)) ∧
    (gs.foldl blockStep r).forward =
      (r.forward || gs.any (fun g => decide (g.sourceHost < g.targetHost))) ∧
    (gs.foldl blockStep r).backward =
      (r.backward || gs.any (fun g => !(decide (g.sourceHost < g.targetHost)))) := by
  induction gs generalizing r with
  | nil => simp
  | cons g gs ih =>
    obtain ⟨h1, h2, h3, h4, h5, h6⟩ := ih (blockStep r g)
    obtain ⟨b1, b2, b3, b4, b5, b6⟩ := blockStep_fields r g
    simp [List.foldl_cons, List.any_cons, h1, h2, h3, h4, h5, h6,
      b1, b2, b3, b4, b5, b6, Bool.or_assoc]

/-- Congruence for `List.any`. -/
theorem any_congr {α : Type*} {l : List α} {p q : α → Bool}
    (h : ∀ x ∈ l, p x = q x) : l.any p = l.any q := by
  induction l with
  | nil => rfl
  | cons x xs ih =>
    rw [List.any_cons, List.any_cons, h x (List.mem_cons_self _ _),
      ih (fun y hy => h y (List.mem_cons_of_mem _ hy))]

/-- For an observation whose sorted pair is `(A, B)` with `A < B`, being
the forward direction is the same as having source `A`. -/
theorem dir_of_sorted {A B : String} (hAB : A < B) {g : FederationObservation}
    (h : sortedPair g.sourceHost g.targetHost = (A, B)) :
    decide (g.sourceHost < g.targetHost) = (g.sourceHost == A) := by
  rw [sortedPair] at h
  by_cases hlt : g.sourceHost < g.targetHost
  · rw [if_pos hlt] at h
    obtain ⟨h1, h2⟩ := Prod.mk.injEq _ _ _ _ ▸ h
    rw [decide_eq_true hlt, h1]
    simp
  · rw [if_neg hlt] at h
    obtain ⟨h1, h2⟩ := Prod.mk.injEq _ _ _ _ ▸ h
    rw [decide_eq_false hlt, h2]
    simp [beq_eq_false_iff_ne.mpr hAB.ne']

/-- Dual of `dir_of_sorted`: being the backward direction is the same as
having source `B`. -/
theorem backdir_of_sorted {A B : String} (hAB : A < B) {g : FederationObservation}
    (h : sortedPair g.sourceHost g.targetHost = (A, B)) :
    (!(decide (g.sourceHost < g.targetHost))) = (g.sourceHost == B) := by
  rw [sortedPair] at h
  by_cases hlt : g.sourceHost < g.targetHost
  · rw [if_pos hlt] at h
    obtain ⟨h1, h2⟩ := Prod.mk.injEq _ _ _ _ ▸ h
    rw [decide_eq_true hlt, h1]
    simp [beq_eq_false_iff_ne.mpr hAB.ne]
  · rw [if_neg hlt] at h
    obtain ⟨h1, h2⟩ := Prod.mk.injEq _ _ _ _ ▸ h
    rw [decide_eq_false hlt, h2]
    simp

/-- The keys of the map after one insertion. -/
theorem insertBlock_keys (m : List (String × BlockRelation)) (f : FederationObservation) :
    (insertBlock m f).map (·.1) =
      if (m.map (·.1)).contains (blockKey f) then m.map (·.1)
      else m.map (·.1) ++ [blockKey f] := by
  induction m with
  | nil => simp [insertBlock]
  | cons p rest ih =>
    obtain ⟨k', r⟩ := p
    by_cases h : k' = blockKey f
    · subst h
      simp [insertBlock, List.contains_cons]
    · have hbeq : (blockKey f == k') = false := beq_eq_false_iff_ne.mpr (Ne.symm h)
      simp only [insertBlock, if_neg h, List.map_cons, List.contains_cons, hbeq,
        Bool.false_or, ih]
      split <;> simp

/-- The map never holds two entries with the same key. -/
theorem foldl_insertBlock_keys_nodup (l : List FederationObservation)
    (m : List (String × BlockRelation)) (hm : (m.map (·.1)).Nodup) :
    ((l.foldl insertBlock m).map (·.1)).Nodup := by
  induction l generalizing m with
  | nil => exact hm
  | cons f fs ih =>
    rw [List.foldl_cons]
    refine ih _ ?_
    rw [insertBlock_keys]
    split
    · exact hm
    · rename_i hc
      refine List.Nodup.append hm (List.nodup_singleton _) ?_
      intro a ha hb
      rcases List.mem_singleton.mp hb with rfl
      exact hc (List.elem_eq_true_of_mem ha)

/-- Every entry's key is its relation's host pair joined by `|`. -/
theorem foldl_insertBlock_key_link (l : List FederationObservation)
    (m : List (String × BlockRelation))
    (hm : ∀ kv ∈ m, kv.1 = kv.2.hostA ++ "|" ++ kv.2.hostB) :
    ∀ kv ∈ l.foldl insertBlock m, kv.1 = kv.2.hostA ++ "|" ++ kv.2.hostB := by
  induction l generalizing m with
  | nil => exact hm
  | cons f fs ih =>
    rw [List.foldl_cons]
    refine ih _ ?_
    clear ih
    induction m with
    | nil =>
      intro kv hkv
      rcases List.mem_singleton.mp hkv with rfl
      obtain ⟨b1, b2, -⟩ := blockStep_fields (blockInit f) f
      show blockKey f = _
      rw [b1, b2]
      simp [blockKey, blockInit]
    | cons p rest ihm =>
      obtain ⟨k', r⟩ := p
      intro kv hkv
      by_cases h : k' = blockKey f
      · subst h
        rw [insertBlock] at hkv
        rw [if_pos rfl] at hkv
        rcases List.mem_cons.mp hkv with rfl | hmem
        · obtain ⟨b1, b2, -⟩ := blockStep_fields r f
          simp only [b1, b2]
          exact hm _ (List.mem_cons_self _ _)
        · exact hm _ (List.mem_cons_of_mem _ hmem)
      · rw [insertBlock, if_neg h] at hkv
        rcases List.mem_cons.mp hkv with rfl | hmem
        · exact hm _ (List.mem_cons_self _ _)
        · exact ihm (fun kv' hkv' => hm _ (List.mem_cons_of_mem _ hkv')) kv hmem

/-- A successful lookup names an entry of the association list. -/
theorem lookup_mem {m : List (String × BlockRelation)} {k : String} {v : BlockRelation}
    (h : m.lookup k = some v) : (k, v) ∈ m := by
  induction m with
  | nil => cases h
  | cons p rest ih =>
    obtain ⟨k', v'⟩ := p
    rw [List.lookup_cons] at h
    by_cases hk : k = k'
    · subst hk
      simp only [beq_self_eq_true] at h
      rcases Option.some.inj h with rfl
      exact List.mem_cons_self _ _
    · rw [beq_eq_false_iff_ne.mpr hk] at h
      exact List.mem_cons_of_mem _ (ih h)

/-- With pairwise distinct keys, every entry is what lookup returns. -/
theorem lookup_eq_of_mem_nodup {m : List (String × BlockRelation)}
    (hnodup : (m.map (·.1)).Nodup) {kv : String × BlockRelation} (hkv : kv ∈ m) :
    m.lookup kv.1 = some kv.2 := by
  induction m with
  | nil => cases hkv
  | cons p rest ih =>
    obtain ⟨k', v'⟩ := p
    rw [List.map_cons, List.nodup_cons] at hnodup
    rcases List.mem_cons.mp hkv with rfl | hmem
    · simp [List.lookup_cons]
    · rw [List.lookup_cons]
      have hne : kv.1 ≠ k' := by
        intro he
        exact hnodup.1 (he ▸ List.mem_map_of_mem (·.1) hmem)
      rw [beq_eq_false_iff_ne.mpr hne]
      exact ih hnodup.2 hmem

/-- In a list with pairwise distinct keys, a predicate that forces one key
holds for exactly one entry once it holds for some entry. -/
theorem length_filter_eq_one {m : List (String × BlockRelation)}
    (hnodup : (m.map (·.1)).Nodup) {P : String × BlockRelation → Bool} (bkey : String)
    (hkey : ∀ kv ∈ m, P kv = true → kv.1 = bkey)
    {kv0 : String × BlockRelation} (hmem : kv0 ∈ m) (hP : P kv0 = true) :
    (m.filter P).length = 1 := by
  have hnodupF : ((m.filter P).map (·.1)).Nodup :=
    List.Nodup.sublist ((m.filter_sublist).map _) hnodup
  have hall : ∀ k ∈ (m.filter P).map (·.1), k = bkey := by
    intro k hk
    rcases List.mem_map.mp hk with ⟨kv, hkv, rfl⟩
    have hm := List.mem_filter.mp hkv
    exact hkey kv hm.1 hm.2
  have hmemF : kv0 ∈ m.filter P := List.mem_filter.mpr ⟨hmem, hP⟩
  rcases hF : m.filter P with - | ⟨x, xs⟩
  · rw [hF] at hmemF; cases hmemF
  · rcases xs with - | ⟨y, ys⟩
    · rfl
    · exfalso
      rw [hF, List.map_cons, List.map_cons, List.nodup_cons] at hnodupF
      rw [hF] at hall
      have hx : x.1 = bkey := hall x.1 (by simp)
      have hy : y.1 = bkey := hall y.1 (by simp)
      exact hnodupF.1 (by rw [hx, ← hy]; simp)

/-- Evaluation of the block scenario: both observations of `exF5` land in
the block-relation map entry of the pair `(a.example, b.example)`. -/
theorem pairBlockObs_ex5 :
    pairBlockObs [] exF5 "a.example" "b.example" = exF5 := by
  have h1 : sortedPair "a.example" "b.example" = ("a.example", "b.example") := by
    rw [sortedPair, if_pos (strLt (by decide))]
  have h2 : sortedPair "b.example" "a.example" = ("a.example", "b.example") := by
    rw [sortedPair, if_neg (lt_asymm (strLt (by decide)))]
  norm_num [pairBlockObs, allowedBlocked, blockedFederations, hostAllowed,
    viewpointHostsOf, serverHostsOf, blockKey, exF5, h1, h2,
    List.filter_cons, List.filter_nil]

/-- C5: for an unordered pair `(A, B)` (sorted, `A < B`) whose block/suspend
observations in the input are exactly those with sorted pair `(A, B)` (no
other observation shares the `` `${A}|${B}` `` key), the Edge Normalizer
produces exactly one BlockRelation for the pair; its `isBlocked` and
`isSuspended` flags are the union (OR) over those observations, and
`isMutual` holds iff both an `A`-sourced and a `B`-sourced observation are
present — so with both directions reported `isMutual = true`, with only one
direction `isMutual = false`. -/
theorem C5_blockRelations (servers : List ServerRecord) (feds : List FederationObservation)
    (A B : String) (hAB : A < B)
    (hcoll : ∀ g ∈ pairBlockObs servers feds A B,
      sortedPair g.sourceHost g.targetHost = (A, B))
    (hne : pairBlockObs servers feds A B ≠ []) :
    ((blockRelations servers feds).filter
        (fun r => r.hostA == A && r.hostB == B)).length = 1 ∧
    ∀ r ∈ blockRelations servers feds, r.hostA = A → r.hostB = B →
      r.isBlocked = (pairBlockObs servers feds A B).any (·.isBlocked) ∧
      r.isSuspended = (pairBlockObs servers feds A B).any (·.isSuspended) ∧
      r.isMutual = ((pairBlockObs servers feds A B).any (fun g => g.sourceHost == A) &&
                    (pairBlockObs servers feds A B).any (fun g => g.sourceHost == B)) := by
  have hlook : (blockRelationMap servers feds).lookup (A ++ "|" ++ B) =
      (pairBlockObs servers feds A B).foldl
        (fun acc f => some (blockStep (acc.getD (blockInit f)) f)) none := by
    rw [blockRelationMap, lookup_foldl_insertBlock, List.lookup_nil,
      foldl_blockAcc_filter, pairBlockObs]
  obtain ⟨g, gs, hgs⟩ := List.exists_cons_of_ne_nil hne
  have hlookR : (blockRelationMap servers feds).lookup (A ++ "|" ++ B) =
      some (gs.foldl blockStep (blockStep (blockInit g) g)) := by
    rw [hlook, hgs, List.foldl_cons, Option.getD_none, foldl_someStep]
  have hg : sortedPair g.sourceHost g.targetHost = (A, B) :=
    hcoll g (hgs ▸ List.mem_cons_self _ _)
  obtain ⟨f1, f2, f3, f4, f5, f6⟩ := foldl_blockStep_fields gs (blockStep (blockInit g) g)
  obtain ⟨c1, c2, c3, c4, c5, c6⟩ := blockStep_fields (blockInit g) g
  have hRA : (gs.foldl blockStep (blockStep (blockInit g) g)).hostA = A := by
    rw [f1, c1]; exact congrArg Prod.fst hg
  have hRB : (gs.foldl blockStep (blockStep (blockInit g) g)).hostB = B := by
    rw [f2, c2]; exact congrArg Prod.snd hg
  have hRisB : (gs.foldl blockStep (blockStep (blockInit g) g)).isBlocked =
      (pairBlockObs servers feds A B).any (·.isBlocked) := by
    rw [f3, c3, hgs, List.any_cons]
    simp [blockInit]
  have hRisS : (gs.foldl blockStep (blockStep (blockInit g) g)).isSuspended =
      (pairBlockObs servers feds A B).any (·.isSuspended) := by
    rw [f4, c4, hgs, List.any_cons]
    simp [blockInit]
  have hRfwd : (gs.foldl blockStep (blockStep (blockInit g) g)).forward =
      (pairBlockObs servers feds A B).any (fun x => x.sourceHost == A) := by
    rw [f5, c5, hgs, List.any_cons]
    have hcg : ∀ x ∈ gs, (decide (x.sourceHost < x.targetHost)) = (x.sourceHost == A) :=
      fun x hx => dir_of_sorted hAB (hcoll x (hgs ▸ List.mem_cons_of_mem _ hx))
    rw [any_congr hcg, dir_of_sorted hAB hg]
    simp [blockInit]
  have hRbwd : (gs.foldl blockStep (blockStep (blockInit g) g)).backward =
      (pairBlockObs servers feds A B).any (fun x => x.sourceHost == B) := by
    rw [f6, c6, hgs, List.any_cons]
    have hcg : ∀ x ∈ gs, (!(decide (x.sourceHost < x.targetHost))) = (x.sourceHost == B) :=
      fun x hx => backdir_of_sorted hAB (hcoll x (hgs ▸ List.mem_cons_of_mem _ hx))
    rw [any_congr hcg, backdir_of_sorted hAB hg]
    simp [blockInit]
  have hlink : ∀ kv ∈ blockRelationMap servers feds,
      kv.1 = kv.2.hostA ++ "|" ++ kv.2.hostB := by
    rw [blockRelationMap]
    exact foldl_insertBlock_key_link _ _ (by simp)
  have hnodup : ((blockRelationMap servers feds).map (·.1)).Nodup := by
    rw [blockRelationMap]
    exact foldl_insertBlock_keys_nodup _ _ (by simp)
  have hval : ∀ kv ∈ blockRelationMap servers feds, kv.2.hostA = A → kv.2.hostB = B →
      kv.2 = gs.foldl blockStep (blockStep (blockInit g) g) := by
    intro kv hkv h1 h2
    have hk : kv.1 = A ++ "|" ++ B := by rw [hlink kv hkv, h1, h2]
    have hlk := lookup_eq_of_mem_nodup hnodup hkv
    rw [hk, hlookR] at hlk
    exact (Option.some.inj hlk).symm
  constructor
  · rw [blockRelations, List.filter_map, List.length_map]
    refine length_filter_eq_one hnodup (A ++ "|" ++ B) ?_ (lookup_mem hlookR) ?_
    · intro kv hkv hPkv
      simp only [Function.comp_apply, Bool.and_eq_true, beq_iff_eq] at hPkv
      rw [hlink kv hkv, hPkv.1, hPkv.2]
    · simp [Function.comp, hRA, hRB]
  · intro r hr h1 h2
    rw [blockRelations] at hr
    rcases List.mem_map.mp hr with ⟨kv, hkv, rfl⟩
    have hkvR := hval kv hkv h1 h2
    rw [hkvR, BlockRelation.isMutual, hRfwd, hRbwd]
    exact ⟨hRisB, hRisS, rfl⟩

/-- C5 witness: the spec's end-to-end block scenario (`A→B` blocked,
`B→A` suspended) yields exactly one BlockRelation for the pair. -/
theorem C5_blockRelations_witness :
    ((blockRelations [] exF5).filter
        (fun r => r.hostA == "a.example" && r.hostB == "b.example")).length = 1 :=
  (C5_blockRelations [] exF5 "a.example" "b.example" (strLt (by decide))
    (by
      rw [pairBlockObs_ex5]
      intro g hg
      rcases List.mem_cons.mp hg with rfl | hg2
      · rw [sortedPair, if_pos (strLt (by decide))]
      · rcases List.mem_singleton.mp hg2 with rfl
        rw [sortedPair, if_neg (lt_asymm (strLt (by decide)))])
    (by rw [pairBlockObs_ex5]; simp [exF5])).1

end Missmap
